import Mathlib

/-!
Verification of promheatmap: tick formatters, series flattener, tee transport,
result dispatch.

A shallow embedding of `graph.go` and `main.go`.

* `float64` values are modelled by `F64`: the three special values and the
  finite values, the latter as exact rationals (every finite `float64` is one).
* Code outside the repository (the Go conversions, `time`, `humanize`,
  `gonum/plot`, `spark`, `net/http`) is either modelled separately in the
  namespaces `F64`, `time`, `humanize`, or taken as a field of an environment
  record.
* Code with side effects passes an explicit state.
-/

namespace Promheatmap

/-! ## float64 -/

/-- The `float64` values: not-a-number, the two infinities and the finite values.
The two zeros, which compare equal and convert to the same integers, are one
value here. -/
inductive F64 where
  | nan : F64
  | posInf : F64
  | negInf : F64
  | fin (q : ℚ) : F64
  deriving DecidableEq, Repr

namespace F64

/-- Go `x < y` on `float64`: false as soon as one side is NaN. -/
def lt : F64 → F64 → Bool
  | fin a, fin b => decide (a < b)
  | negInf, fin _ => true
  | negInf, posInf => true
  | fin _, posInf => true
  | _, _ => false

/-- Go `x >= y` on `float64`: false as soon as one side is NaN. -/
def ge : F64 → F64 → Bool
  | fin a, fin b => decide (b ≤ a)
  | fin _, negInf => true
  | posInf, fin _ => true
  | posInf, negInf => true
  | posInf, posInf => true
  | negInf, negInf => true
  | _, _ => false

/-- Truncation of a rational toward zero. -/
def truncate (q : ℚ) : Int := Int.tdiv q.num q.den

/-- Go `int64(x)` for a `float64` x.  A value whose truncation fits in `int64`
converts to that truncation.  For the other values the Go specification leaves
the result to the implementation; the model follows the gc compiler on amd64
(`CVTTSD2SQ`), which yields the smallest `int64`. -/
def toInt64 : F64 → Int
  | fin q =>
    let z := truncate q
    if -(2 ^ 63) ≤ z ∧ z < 2 ^ 63 then z else -(2 ^ 63)
  | _ => -(2 ^ 63)

/-- The float subtraction `x - 2^63` of the amd64 unsigned conversion (exact
for `2^63 ≤ x < 2^64`, the only range in which the result of `toUint64` depends
on its exact value). -/
def subCutoff : F64 → F64
  | fin q => fin (q - 2 ^ 63)
  | x => x

/-- Go `uint64(x)` for a `float64` x.  A value whose truncation fits in
`uint64` converts to that truncation.  For the other values (among them every
value `≤ -1`) the Go specification leaves the result to the implementation; the
model follows the gc compiler on amd64: below `2^63` the signed conversion is
reinterpreted as unsigned, from `2^63` on the signed conversion of `x - 2^63`
gets the top bit set. -/
def toUint64 (x : F64) : Nat :=
  if lt x (fin (2 ^ 63)) then
    (toInt64 x % 2 ^ 64).toNat
  else
    ((toInt64 (subCutoff x) % 2 ^ 64).toNat) ||| 2 ^ 63

/-- Go `float64(x)` for an `int64` x: the nearest `float64`, ties to even.
Integers of at most 53 bits are exact; an integer of `53 + sh` bits is rounded
to a multiple of `2 ^ sh`. -/
def ofInt64 (x : Int) : F64 :=
  let n := x.natAbs
  let sh := ((List.range 11).filter (fun k => decide (2 ^ (53 + k) ≤ n))).length
  let q := n / 2 ^ sh
  let r := n % 2 ^ sh
  let up := decide (2 ^ sh < 2 * r) || (decide (2 ^ sh = 2 * r) && decide (q % 2 = 1))
  let m : Nat := (if up then q + 1 else q) * 2 ^ sh
  fin (if x < 0 then -(m : ℚ) else (m : ℚ))

/-- Rounding of a positive integer to 53 significant bits, ties to even: what
`float64` arithmetic does to an exact result `n / 2^k` (as long as the result
is a normal number), read on the numerator.  Covers `n < 2^117`. -/
def round53 (n : Nat) : Nat :=
  let sh := ((List.range 64).filter (fun k => decide (2 ^ (53 + k) ≤ n))).length
  let q := n / 2 ^ sh
  let r := n % 2 ^ sh
  let up := decide (2 ^ sh < 2 * r) || (decide (2 ^ sh = 2 * r) && decide (q % 2 = 1))
  (if up then q + 1 else q) * 2 ^ sh

end F64

/-! ## The `time` package (standard library) -/

namespace time

/-- A `time.Duration`: a count of nanoseconds held in an `int64`. -/
abbrev Duration := Int

/-- The constant `time.Second`. -/
def Second : Duration := 1000000000

/-- The loop of `fmtFrac`: `prec` digits of `v`, least significant first, are
written in front of `buf`; trailing zeros are left out. -/
def fmtFracLoop : Nat → List Char → Nat → Bool → List Char × Nat × Bool
  | 0, buf, v, print => (buf, v, print)
  | prec + 1, buf, v, print =>
    let digit := v % 10
    let print := print || decide (digit ≠ 0)
    let buf := if print then Char.ofNat (digit + 48) :: buf else buf
    fmtFracLoop prec buf (v / 10) print

/-- The helper `fmtFrac`: writes the fraction of `v / 10^prec` in front of `buf`
(nothing when the fraction is 0) and returns `v / 10^prec`. -/
def fmtFrac (buf : List Char) (v : Nat) (prec : Nat) : List Char × Nat :=
  match fmtFracLoop prec buf v false with
  | (buf, v, print) => (if print then '.' :: buf else buf, v)

/-- The helper `fmtInt`: writes the decimal digits of `v` in front of `buf`. -/
def fmtInt (buf : List Char) (v : Nat) : List Char :=
  Nat.toDigits 10 v ++ buf

/-- The method `Duration.String`: hours, minutes and seconds with a fraction
(`"1m30s"`, `"1.5s"`), or a smaller unit below one second (`"0s"`, `"1.2ms"`). -/
def Duration.String (d : Duration) : String :=
  let u : Nat := d.natAbs
  let neg := decide (d < 0)
  let sign (buf : List Char) : List Char := if neg then '-' :: buf else buf
  if u < 1000000000 then
    if u = 0 then
      "0s"
    else if u < 1000 then
      let (buf, u) := fmtFrac ['n', 's'] u 0
      String.mk (sign (fmtInt buf u))
    else if u < 1000000 then
      let (buf, u) := fmtFrac ['µ', 's'] u 3
      String.mk (sign (fmtInt buf u))
    else
      let (buf, u) := fmtFrac ['m', 's'] u 6
      String.mk (sign (fmtInt buf u))
  else
    let (buf, u) := fmtFrac ['s'] u 9
    let buf := fmtInt buf (u % 60)
    let u := u / 60
    if 0 < u then
      let buf := fmtInt ('m' :: buf) (u % 60)
      let u := u / 60
      if 0 < u then
        String.mk (sign (fmtInt ('h' :: buf) u))
      else
        String.mk (sign buf)
    else
      String.mk (sign buf)

/-- A `*time.Location`, reduced to what formatting needs: the offset east of
UTC, in seconds, in force at a given Unix time. -/
structure Location where
  offset : Int → Int

/-- The location `time.UTC`. -/
def UTC : Location := ⟨fun _ => 0⟩

/-- A location with the same offset at every instant (`time.FixedZone`). -/
def FixedZone (offset : Int) : Location := ⟨fun _ => offset⟩

/-- A `time.Time`: seconds since the Unix epoch, nanoseconds within the second,
and the location in which the instant is presented. -/
structure Time where
  sec : Int
  nsec : Int
  loc : Location

/-- The function `time.Unix(sec, 0)`, which returns the instant in the location
`time.Local`; the process's local location is the argument `locl`. -/
def Unix (locl : Location) (sec : Int) : Time := ⟨sec, 0, locl⟩

/-- Seconds from January 1, year 1 to the Unix epoch (`unixToInternal`). -/
def unixToInternal : Int := 62135596800

/-- The method `Time.Truncate`: rounds the instant down to a multiple of `d`
since the zero time; for `d ≤ 0` the instant is returned unchanged.  With
`d = time.Second` and no nanoseconds, the call `plotScatter` makes, the instant
comes back unchanged for every `sec`, as in Go; for other `d` the model is exact
while `sec + unixToInternal` is an `int64`. -/
def Time.Truncate (t : Time) (d : Duration) : Time :=
  if d ≤ 0 then t
  else
    let total := (t.sec + unixToInternal) * 1000000000 + t.nsec
    let r := total % d
    let ns := t.sec * 1000000000 + t.nsec - r
    ⟨ns / 1000000000, ns % 1000000000, t.loc⟩

/-- Decimal digits of `n`, padded with zeros on the left to `width` digits
(`appendInt`). -/
def appendInt (n : Int) (width : Nat) : List Char :=
  let ds := Nat.toDigits 10 n.natAbs
  let padded := List.replicate (width - ds.length) '0' ++ ds
  if n < 0 then '-' :: padded else padded

/-- The civil date (year, month, day) of a day number counted from 1970-01-01
in the proleptic Gregorian calendar. -/
def civil (days : Int) : Int × Int × Int :=
  let z := days + 719468
  let era := z / 146097
  let doe := z % 146097
  let yoe := (doe - doe / 1460 + doe / 36524 - doe / 146096) / 365
  let doy := doe - (365 * yoe + yoe / 4 - yoe / 100)
  let mp := (5 * doy + 2) / 153
  let d := doy - (153 * mp + 2) / 5 + 1
  let m := if mp < 10 then mp + 3 else mp - 9
  let y := yoe + era * 400
  (if m ≤ 2 then y + 1 else y, m, d)

/-- Seconds from the absolute zero of the package, January 1 of the year
-292277022399, to the Unix epoch (`unixToInternal + internalToAbsolute`); a
whole number of days, `absoluteDays`. -/
def unixToAbsolute : Int := 9223372028715321600

/-- Days from the absolute zero of the package to the Unix epoch. -/
def absoluteDays : Int := 106751991073094

/-- The method `Time.Format` for the layout `time.RFC3339`
(`2006-01-02T15:04:05Z07:00`): the date and the time of day in the location of
`t`, then `Z` when the offset is zero, otherwise the signed offset `±hh:mm`.
As in the method `abs`, the seconds since the absolute zero are a `uint64`, so
an instant before the absolute zero wraps around to the far future. -/
def Time.FormatRFC3339 (t : Time) : String :=
  let offset := t.loc.offset t.sec
  let abs := (t.sec + offset + unixToAbsolute) % 2 ^ 64
  let (year, month, day) := civil (abs / 86400 - absoluteDays)
  let secs := abs % 86400
  let zone := Int.tdiv offset 60
  let tz : List Char :=
    if offset = 0 then ['Z']
    else
      (if zone < 0 then '-' else '+') ::
        (appendInt (zone.natAbs / 60) 2 ++ ':' :: appendInt (zone.natAbs % 60) 2)
  String.mk (appendInt year 4 ++ '-' :: appendInt month 2 ++ '-' :: appendInt day 2
    ++ 'T' :: appendInt (secs / 3600) 2 ++ ':' :: appendInt (secs % 3600 / 60) 2
    ++ ':' :: appendInt (secs % 60) 2 ++ tz)

end time

/-! ## The `humanize` package (github.com/dustin/go-humanize) -/

namespace humanize

/-- The unit names of `IBytes`. -/
def sizes : List String := ["B", "KiB", "MiB", "GiB", "TiB", "PiB", "EiB"]

/-- The function `humanize.IBytes` on a `uint64`, that is
`humanateBytes(s, 1024, sizes)`: below 10 the plain count; otherwise, with
`e = math.Floor(logn(float64(s), 1024))`, the value
`math.Floor(float64(s)/math.Pow(1024, e)*10+0.5) / 10` and the unit `sizes[e]`,
printed with one decimal when the value is below 10 and with none otherwise.

The exponent `e` comes out of `float64` logarithms, whose last bit the model
does not fix: it is the argument `exponent` (at most 6, since `2^64 < 1024^7`).
The rest is `float64` arithmetic on exact quantities: the division by a power
of two is exact, the product and the sum are rounded to 53 bits (numerators
over `1024^e` and `2 * 1024^e`), and the decimal printing of `tenths / 10`
rounds an exact half to even. -/
def IBytes (exponent : Nat → Fin 7) (s : Nat) : String :=
  if s < 10 then
    String.mk (Nat.toDigits 10 s) ++ " B"
  else
    let e := (exponent s).val
    let suffix := sizes.getD e ""
    let fs := F64.round53 s
    let y := F64.round53 (fs * 10)
    let z := F64.round53 (2 * y + 1024 ^ e)
    let tenths := z / (2 * 1024 ^ e)
    if tenths < 100 then
      String.mk (Nat.toDigits 10 (tenths / 10) ++ '.' :: Nat.toDigits 10 (tenths % 10))
        ++ " " ++ suffix
    else
      let whole := tenths / 10
      let frac := tenths % 10
      let rounded := if 5 < frac ∨ (frac = 5 ∧ whole % 2 = 1) then whole + 1 else whole
      String.mk (Nat.toDigits 10 rounded) ++ " " ++ suffix

end humanize

/-! ## graph.go: ticks and tick formatters -/

/-- A `plot.Tick`: a position on an axis and its label. -/
structure Tick where
  Value : F64
  Label : String
  deriving DecidableEq, Repr

/-- The interface `plot.Ticker`.  A call of `Ticks(min, max)` may read and
change state of its own, of type `σ`. -/
structure Ticker (σ : Type) where
  Ticks : F64 → F64 → σ → List Tick × σ

/-- The type `ticker`, a function used as a `plot.Ticker`: its method `Ticks`
calls the function. -/
def ticker {σ : Type} (t : F64 → F64 → σ → List Tick × σ) : Ticker σ := ⟨t⟩

/-- The function `readableDuration`. -/
def readableDuration {σ : Type} (marker : Ticker σ) : Ticker σ :=
  ticker (fun min max s =>
    let (ticks, s) := marker.Ticks min max s
    (ticks.foldl (fun out t =>
        let t := { t with Label := time.Duration.String (F64.toInt64 t.Value) }
        out ++ [t]) [], s))

/-- The function `readableBytes`; `exponent` is the `float64` logarithm inside
`humanize.IBytes`. -/
def readableBytes {σ : Type} (exponent : Nat → Fin 7) (marker : Ticker σ) : Ticker σ :=
  ticker (fun min max s =>
    let (ticks, s) := marker.Ticks min max s
    (ticks.foldl (fun out t =>
        let t := { t with Label := humanize.IBytes exponent (F64.toUint64 t.Value) }
        out ++ [t]) [], s))

/-- The function `readableTime`; `locl` is the local location of the process,
which `time.Unix` gives to the instants it returns. -/
def readableTime {σ : Type} (locl : time.Location) (truncate : time.Duration)
    (marker : Ticker σ) : Ticker σ :=
  ticker (fun min max s =>
    let (ticks, s) := marker.Ticks min max s
    (ticks.foldl (fun out t =>
        let t := { t with Label :=
          ((time.Unix locl (F64.toInt64 t.Value)).Truncate truncate).FormatRFC3339 }
        out ++ [t]) [], s))

/-- A tick source like `m` whose state also lists, in order, the ranges it was
queried with. -/
def recorded {σ : Type} (m : Ticker σ) : Ticker (σ × List (F64 × F64)) where
  Ticks := fun min max s =>
    match m.Ticks min max s.1 with
    | (ticks, s1) => (ticks, (s1, s.2 ++ [(min, max)]))

/-! ## Values of `github.com/prometheus/common/model` -/

/-- The Go type `error`, reduced to its message. -/
abbrev Error := String

namespace model

/-- A `model.SamplePair`: a `model.Time` (milliseconds since the Unix epoch, an
`int64`) and a `model.SampleValue` (a `float64`). -/
structure SamplePair where
  Timestamp : Int
  Value : F64
  deriving DecidableEq, Repr

/-- The method `model.Time.Unix`: whole seconds, by Go integer division. -/
def Time.Unix (t : Int) : Int := Int.tdiv t 1000

/-- A `model.SampleStream`, behind a non-nil pointer: the name of the series
and its samples. -/
structure SampleStream where
  Metric : String
  Values : List SamplePair
  deriving DecidableEq, Repr

/-- A `model.Sample`, an element of a `model.Vector`. -/
structure Sample where
  Metric : String
  Value : F64
  Timestamp : Int
  deriving DecidableEq, Repr

/-- The dynamic type of a `model.Value` as the type switch of `main` tells
them apart; `other` is every remaining dynamic type, with the name `%T` prints. -/
inductive Value where
  | scalar (value : F64) (timestamp : Int) : Value
  | vector (val : List Sample) : Value
  | matrix (val : List SampleStream) : Value
  | string (value : String) (timestamp : Int) : Value
  | other (typeName : String) : Value
  deriving DecidableEq, Repr

end model

/-! ## graph.go: plotScatter -/

/-- An element of `plotter.XYs`. -/
structure XY where
  X : F64
  Y : F64
  deriving DecidableEq, Repr

/-- The function literal that `plotScatter` passes to `plotter.NewScatter`:
every sample of every stream, in order, becomes one point. -/
def plotScatter.xys (streams : List model.SampleStream) (min : F64) : List XY :=
  streams.foldl (fun xys stream =>
    stream.Values.foldl (fun xys ev =>
      let x := model.Time.Unix ev.Timestamp
      let ev := if F64.lt ev.Value min then { ev with Value := min } else ev
      xys ++ [{ X := F64.ofInt64 x, Y := ev.Value }]) xys) []

/-- The fields of the `*plot.Plot` that `plotScatter` sets, and what it adds. -/
structure Plot (σ : Type) where
  Title : String
  YLabel : String
  YLogScale : Bool
  YMarker : Ticker σ
  XLabel : String
  XMarker : Ticker σ
  grid : Bool
  scatter : List XY
  scatterColor : Nat × Nat × Nat × Nat
  scatterShape : String
  scatterRadius : Nat

/-- What `plotScatter` and `main` use of `gonum/plot`, `plotter`, `humanize` and
of the process. -/
structure PlotEnv (σ : Type) where
  /-- Error of `plot.New()`, if any. -/
  plotNew : Option Error
  /-- The ticker `plot.LogTicks{}`. -/
  LogTicks : Ticker σ
  /-- The X tick marker of a new plot. -/
  DefaultTicks : Ticker σ
  /-- Error of `plotter.NewScatter` for the given points, if any. -/
  NewScatter : List XY → Option Error
  /-- Error of `p.Save(width, height, filename)`, if any. -/
  Save : Plot σ → Nat → Nat → String → Option Error
  /-- The location `time.Local`. -/
  locl : time.Location
  /-- The `float64` logarithm inside `humanize.IBytes`. -/
  exponent : Nat → Fin 7

/-- How a call of `plotScatter` ends. -/
inductive PlotResult (σ : Type) where
  /-- A run-time panic (call of a nil function value). -/
  | panicked : PlotResult σ
  /-- An error returned before `p.Save` is reached. -/
  | failed (err : Error) : PlotResult σ
  /-- The plot was handed to `p.Save`, whose result is returned. -/
  | saved (p : Plot σ) (width height : Nat) (filename : String) (err : Option Error) :
      PlotResult σ

/-- The function `plotScatter`.  A nil `unitsTicker` is `none`.  Lengths are in
points (`vg.Inch` is 72). -/
def plotScatter {σ : Type} (env : PlotEnv σ) (streams : List model.SampleStream) (min : F64)
    (unitsTicker : Option (Ticker σ → Ticker σ)) (title filename : String) : PlotResult σ :=
  match env.plotNew with
  | some err => .failed err
  | none =>
    match unitsTicker with
    | none => .panicked
    | some unitsTicker =>
      let yMarker := unitsTicker env.LogTicks
      let xMarker := readableTime env.locl time.Second env.DefaultTicks
      let points := plotScatter.xys streams min
      match env.NewScatter points with
      | some err => .failed err
      | none =>
        let p : Plot σ :=
          { Title := title, YLabel := "log10", YLogScale := true, YMarker := yMarker,
            XLabel := "Date", XMarker := xMarker, grid := true, scatter := points,
            scatterColor := (166, 189, 219, 255), scatterShape := "draw.PlusGlyph",
            scatterRadius := 1 }
        let width := 16 * 72
        let height := 12 * 72
        .saved p width height filename (env.Save p width height filename)

/-! ## main.go -/

/-- The `switch units` of `main`: the value of `unitTicker` after it, `none`
when the variable is still nil. -/
def unitTicker {σ : Type} (env : PlotEnv σ) (units : String) :
    Option (Ticker σ → Ticker σ) :=
  if units = "duration" then some readableDuration
  else if units = "unitless" then some (fun tk => tk)
  else if units = "bytes" then some (readableBytes env.exponent)
  else none

/-- The function `countMatrixPoints`. -/
def countMatrixPoints (mat : List model.SampleStream) : Nat :=
  mat.foldl (fun count str => count + str.Values.length) 0

/-- An argument of a `log` call. -/
inductive Arg where
  | time (t : Int) : Arg
  | value (v : F64) : Arg
  | int (n : Nat) : Arg
  | str (s : String) : Arg
  | typeOf (name : String) : Arg
  deriving DecidableEq, Repr

/-- What the type switch of `main` does, in order. -/
inductive Event (σ : Type) where
  /-- A call `log.Printf(format, args...)`. -/
  | printf (format : String) (args : List Arg) : Event σ
  /-- A call of `plotScatter` with these arguments, and how it ended. -/
  | plotScatter (streams : List model.SampleStream) (min : F64)
      (unitsTicker : Option (Ticker σ → Ticker σ)) (title filename : String)
      (res : PlotResult σ) : Event σ
  /-- A call `log.Fatal(err)`: the process exits with status 1. -/
  | fatal (err : Error) : Event σ
  /-- A call `log.Fatalf(format, args...)`: the process exits with status 1. -/
  | fatalf (format : String) (args : List Arg) : Event σ
  /-- The process dies of a run-time panic. -/
  | panic : Event σ

/-- The type switch on the query result at the end of `main`, with the values
of the local variables it reads. -/
def main.switch {σ : Type} (env : PlotEnv σ) (query filename : String) (minVal : F64)
    (units : String) (v : model.Value) : List (Event σ) :=
  match v with
  | .scalar value timestamp => [.printf "scalar %v: %v" [.time timestamp, .value value]]
  | .vector val =>
    val.foldl (fun evs scalar =>
      evs ++ [.printf "vector %v: %v" [.time scalar.Timestamp, .value scalar.Value]]) []
  | .matrix val =>
    let ev1 : Event σ :=
      .printf "plotting %d points to %q" [.int (countMatrixPoints val), .str filename]
    let title := query
    let res := plotScatter env val minVal (unitTicker env units) title filename
    let call : Event σ := .plotScatter val minVal (unitTicker env units) title filename res
    match res with
    | .panicked => [ev1, call, .panic]
    | .failed err => [ev1, call, .fatal err]
    | .saved _ _ _ _ (some err) => [ev1, call, .fatal err]
    | .saved _ _ _ _ none => [ev1, call]
  | .string value timestamp => [.printf "string %v: %v" [.time timestamp, .str value]]
  | .other typeName => [.fatalf "received type %T from prometheus" [.typeOf typeName]]

/-- Whether an event is a call of `plotScatter`. -/
def Event.isRender {σ : Type} : Event σ → Bool
  | .plotScatter _ _ _ _ _ _ => true
  | _ => false

/-- Whether an event is a plain report through `log.Printf`. -/
def Event.isReport {σ : Type} : Event σ → Bool
  | .printf _ _ => true
  | _ => false

/-! ## main.go: peakTransport -/

/-- The interface `io.ReadCloser` over a world state `ω`.  `Read` gets the
length of the buffer and returns the bytes it stored and the error. -/
structure ReadCloser (ω : Type) where
  Read : Nat → ω → (List Nat × Option Error) × ω
  Close : ω → Option Error × ω

/-- An `http.Response`, behind a non-nil pointer; a nil `Body` is `none`. -/
structure Response (ω : Type) where
  StatusCode : Nat
  Body : Option (ReadCloser ω)

/-- The type `fnReadCloser`. -/
structure fnReadCloser (ω : Type) where
  closeFn : ω → Option Error × ω
  readFn : Nat → ω → (List Nat × Option Error) × ω

/-- The method `fnReadCloser.Read`. -/
def fnReadCloser.Read {ω : Type} (fn : fnReadCloser ω) (p : Nat) (w : ω) :
    (List Nat × Option Error) × ω :=
  fn.readFn p w

/-- The method `fnReadCloser.Close`. -/
def fnReadCloser.Close {ω : Type} (fn : fnReadCloser ω) (w : ω) : Option Error × ω :=
  fn.closeFn w

/-- A `*fnReadCloser` stored in an `io.ReadCloser`. -/
def fnReadCloser.toReadCloser {ω : Type} (fn : fnReadCloser ω) : ReadCloser ω :=
  ⟨fn.Read, fn.Close⟩

/-- The type `peakTransport`, with what `RoundTrip` uses of the outside:
`wrap` is the method `RoundTrip` of the wrapped transport, which returns a
response pointer (`none` when nil) and an error (`none` when nil); `ReaderOut`
is `spark.ReaderOut(r, os.Stderr)`, which gets the `Read` method of `r` (`none`
for a nil reader), may act on the world, and returns the `Read` method of the
tap it builds. -/
structure peakTransport (Request ω : Type) where
  wrap : Request → ω → (Option (Response ω) × Option Error) × ω
  ReaderOut : Option (Nat → ω → (List Nat × Option Error) × ω) → ω →
    (Nat → ω → (List Nat × Option Error) × ω) × ω

/-- How a call ends: by a run-time panic or by returning. -/
inductive Outcome (α : Type) where
  | panic : Outcome α
  | ret (a : α) : Outcome α

/-- The method `peakTransport.RoundTrip`.  Evaluating `resp.Body` with a nil
`resp` panics; so does evaluating the method value `resp.Body.Close` with a nil
`resp.Body`, after `spark.ReaderOut` has run. -/
def peakTransport.RoundTrip {Request ω : Type} (tpt : peakTransport Request ω)
    (req : Request) (w : ω) : Outcome (Option (Response ω) × Option Error) × ω :=
  match tpt.wrap req w with
  | ((none, _), w) => (.panic, w)
  | ((some resp, err), w) =>
    match tpt.ReaderOut (resp.Body.map (fun b => b.Read)) w with
    | (s, w) =>
      match resp.Body with
      | none => (.panic, w)
      | some body =>
        let fn : fnReadCloser ω := { readFn := s, closeFn := body.Close }
        (.ret (some { resp with Body := some fn.toReadCloser }, err), w)

/-- The results and the final world of `n` successive calls of `Close`. -/
def closeTimes {ω : Type} (b : ReadCloser ω) : Nat → ω → List (Option Error) × ω
  | 0, w => ([], w)
  | n + 1, w =>
    match b.Close w with
    | (e, w) =>
      match closeTimes b n w with
      | (es, w) => (e :: es, w)

/-- A body like `b` whose world also counts the calls of its `Close`. -/
def counted {ω : Type} (b : ReadCloser ω) : ReadCloser (ω × Nat) where
  Read := fun p w =>
    match b.Read p w.1 with
    | (r, w1) => (r, (w1, w.2))
  Close := fun w =>
    match b.Close w.1 with
    | (e, w1) => (e, (w1, w.2 + 1))


/-! ## Auxiliary facts -/

theorem foldl_append_singleton {α β : Type} (f : α → β) (l : List α) (acc : List β) :
    l.foldl (fun out t => out ++ [f t]) acc = acc ++ l.map f := by
  induction l generalizing acc with
  | nil => simp
  | cons a l ih => simp [ih]

theorem readableDuration_ticks {σ : Type} (m : Ticker σ) (min max : F64) (s : σ) :
    (readableDuration m).Ticks min max s =
      ((m.Ticks min max s).1.map
        (fun t => { t with Label := time.Duration.String (F64.toInt64 t.Value) }),
       (m.Ticks min max s).2) := by
  simp only [readableDuration, ticker]
  rw [foldl_append_singleton]
  simp

theorem readableBytes_ticks {σ : Type} (exponent : Nat → Fin 7) (m : Ticker σ)
    (min max : F64) (s : σ) :
    (readableBytes exponent m).Ticks min max s =
      ((m.Ticks min max s).1.map
        (fun t => { t with Label := humanize.IBytes exponent (F64.toUint64 t.Value) }),
       (m.Ticks min max s).2) := by
  simp only [readableBytes, ticker]
  rw [foldl_append_singleton]
  simp

theorem readableTime_ticks {σ : Type} (locl : time.Location) (d : time.Duration)
    (m : Ticker σ) (min max : F64) (s : σ) :
    (readableTime locl d m).Ticks min max s =
      ((m.Ticks min max s).1.map
        (fun t => { t with Label :=
          ((time.Unix locl (F64.toInt64 t.Value)).Truncate d).FormatRFC3339 }),
       (m.Ticks min max s).2) := by
  simp only [readableTime, ticker]
  rw [foldl_append_singleton]
  simp

theorem recorded_ticks {σ : Type} (m : Ticker σ) (min max : F64) (s : σ)
    (log : List (F64 × F64)) :
    (recorded m).Ticks min max (s, log) =
      ((m.Ticks min max s).1, ((m.Ticks min max s).2, log ++ [(min, max)])) := rfl

/-- C1: each of `readableDuration`, `readableBytes` and `readableTime` queries
the wrapped source once, with the same range, and returns as many ticks as it,
with the same values in the same order. -/
theorem readable_same_ticks_up_to_label {σ : Type} (m : Ticker σ) (locl : time.Location)
    (d : time.Duration) (exponent : Nat → Fin 7) (min max : F64) (s : σ)
    (log : List (F64 × F64)) :
    (((readableDuration (recorded m)).Ticks min max (s, log)).2
        = ((m.Ticks min max s).2, log ++ [(min, max)]) ∧
      ((readableDuration (recorded m)).Ticks min max (s, log)).1.length
        = (m.Ticks min max s).1.length ∧
      ((readableDuration (recorded m)).Ticks min max (s, log)).1.map Tick.Value
        = (m.Ticks min max s).1.map Tick.Value) ∧
    (((readableBytes exponent (recorded m)).Ticks min max (s, log)).2
        = ((m.Ticks min max s).2, log ++ [(min, max)]) ∧
      ((readableBytes exponent (recorded m)).Ticks min max (s, log)).1.length
        = (m.Ticks min max s).1.length ∧
      ((readableBytes exponent (recorded m)).Ticks min max (s, log)).1.map Tick.Value
        = (m.Ticks min max s).1.map Tick.Value) ∧
    (((readableTime locl d (recorded m)).Ticks min max (s, log)).2
        = ((m.Ticks min max s).2, log ++ [(min, max)]) ∧
      ((readableTime locl d (recorded m)).Ticks min max (s, log)).1.length
        = (m.Ticks min max s).1.length ∧
      ((readableTime locl d (recorded m)).Ticks min max (s, log)).1.map Tick.Value
        = (m.Ticks min max s).1.map Tick.Value) := by
  rw [readableDuration_ticks, readableBytes_ticks, readableTime_ticks, recorded_ticks]
  simp [Function.comp_def]

theorem truncate_of_nonneg {q : ℚ} (h : 0 ≤ q) : F64.truncate q = ⌊q⌋ := by
  unfold F64.truncate
  rw [Int.tdiv_eq_ediv (Rat.num_nonneg.2 h) (Int.ofNat_nonneg _), Rat.floor_def]

theorem truncate_neg (q : ℚ) : F64.truncate (-q) = -F64.truncate q := by
  unfold F64.truncate
  simp [Int.neg_tdiv]

theorem truncate_of_nonpos {q : ℚ} (h : q ≤ 0) : F64.truncate q = ⌈q⌉ := by
  have h1 : F64.truncate (-q) = ⌊-q⌋ := truncate_of_nonneg (by linarith)
  rw [truncate_neg] at h1
  rw [Int.floor_neg] at h1
  omega

theorem toInt64_of_fits (q : ℚ) (h1 : -(2 ^ 63) ≤ F64.truncate q) (h2 : F64.truncate q < 2 ^ 63) :
    F64.toInt64 (.fin q) = F64.truncate q := by
  have h : -(2 ^ 63) ≤ F64.truncate q ∧ F64.truncate q < 2 ^ 63 := ⟨h1, h2⟩
  simp only [F64.toInt64]
  exact if_pos h

theorem toUint64_of_nonneg (q : ℚ) (h0 : 0 ≤ q) (h1 : q < 2 ^ 64) :
    F64.toUint64 (.fin q) = ⌊q⌋₊ := by
  have hfl : (0 : ℤ) ≤ ⌊q⌋ := Int.floor_nonneg.2 h0
  have hlt64 : ⌊q⌋ < 2 ^ 64 := by
    rw [Int.floor_lt]
    exact_mod_cast h1
  by_cases hq : q < 2 ^ 63
  · have hlt63 : ⌊q⌋ < 2 ^ 63 := by
      rw [Int.floor_lt]
      exact_mod_cast hq
    have hconv : F64.toInt64 (.fin q) = ⌊q⌋ := by
      rw [toInt64_of_fits q (by rw [truncate_of_nonneg h0]; omega)
        (by rw [truncate_of_nonneg h0]; exact hlt63), truncate_of_nonneg h0]
    unfold F64.toUint64
    rw [if_pos (by simp [F64.lt, hq]), hconv, Int.emod_eq_of_lt hfl hlt64, Int.floor_toNat]
  · have hge : (2 : ℚ) ^ 63 ≤ q := not_lt.1 hq
    have hsub0 : 0 ≤ q - 2 ^ 63 := by linarith
    have hfloor : ⌊q - 2 ^ 63⌋ = ⌊q⌋ - 2 ^ 63 := by
      have := Int.floor_sub_int q (2 ^ 63)
      push_cast at this
      exact this
    have hge63 : (2 : ℤ) ^ 63 ≤ ⌊q⌋ := by
      rw [Int.le_floor]
      exact_mod_cast hge
    have hconv : F64.toInt64 (F64.subCutoff (.fin q)) = ⌊q⌋ - 2 ^ 63 := by
      unfold F64.subCutoff
      rw [toInt64_of_fits _ (by rw [truncate_of_nonneg hsub0, hfloor]; omega)
        (by rw [truncate_of_nonneg hsub0, hfloor]; omega), truncate_of_nonneg hsub0, hfloor]
    unfold F64.toUint64
    rw [if_neg (by simp [F64.lt, hq]), hconv,
      Int.emod_eq_of_lt (by omega) (by omega)]
    have hnat : ⌊q⌋₊ = ⌊q⌋.toNat := (Int.floor_toNat q).symm
    have hb : (⌊q⌋ - 2 ^ 63).toNat < 2 ^ 63 := by omega
    have hor := Nat.mul_add_lt_is_or hb 1
    rw [Nat.mul_one] at hor
    rw [Nat.lor_comm, ← hor]
    omega

theorem truncate_of_small_negative (q : ℚ) (h0 : -1 < q) (h1 : q < 0) :
    F64.truncate q = 0 := by
  rw [truncate_of_nonpos (le_of_lt h1), Int.ceil_eq_iff]
  constructor
  · simpa using h0
  · simpa using le_of_lt h1

theorem toUint64_of_small_negative (q : ℚ) (h0 : -1 < q) (h1 : q < 0) :
    F64.toUint64 (.fin q) = 0 := by
  have ht := truncate_of_small_negative q h0 h1
  have hconv : F64.toInt64 (.fin q) = 0 := by
    rw [toInt64_of_fits q (by rw [ht]; norm_num) (by rw [ht]; norm_num), ht]
  have hlt : q < 2 ^ 63 := lt_trans h1 (by positivity)
  unfold F64.toUint64
  rw [if_pos (by simp [F64.lt, hlt]), hconv]
  rfl

theorem toUint64_of_fits (q : ℚ) (h0 : -1 < q) (h1 : q < 2 ^ 64) :
    F64.toUint64 (.fin q) = (F64.truncate q).toNat := by
  by_cases hq : 0 ≤ q
  · rw [toUint64_of_nonneg q hq h1, truncate_of_nonneg hq, Int.floor_toNat]
  · have hneg : q < 0 := not_le.1 hq
    rw [toUint64_of_small_negative q h0 hneg, truncate_of_small_negative q h0 hneg]
    rfl

theorem IBytes_below_ten (exponent : Nat → Fin 7) (n : Nat) (h : n < 10) :
    humanize.IBytes exponent n = String.mk (Nat.toDigits 10 n) ++ " B" := by
  simp [humanize.IBytes, h]

/-- C9: `readableDuration` labels every tick with `Duration.String` of the
`int64` conversion of its value, which is the value truncated toward zero
whenever that integer is an `int64`; a tick at 90000000000 is labelled `1m30s`. -/
theorem readableDuration_labels {σ : Type} (m : Ticker σ) (min max : F64) (s : σ) :
    ((readableDuration m).Ticks min max s).1 =
        (m.Ticks min max s).1.map
          (fun t => { t with Label := time.Duration.String (F64.toInt64 t.Value) }) ∧
    (∀ t ∈ ((readableDuration m).Ticks min max s).1, ∀ q : ℚ, t.Value = .fin q →
        -(2 ^ 63) ≤ F64.truncate q → F64.truncate q < 2 ^ 63 →
        t.Label = time.Duration.String (F64.truncate q)) ∧
    (∀ t ∈ ((readableDuration m).Ticks min max s).1, t.Value = .fin 90000000000 →
        t.Label = "1m30s") := by
  rw [readableDuration_ticks]
  refine ⟨rfl, ?_, ?_⟩
  · intro t ht q hq h1 h2
    simp only [List.mem_map] at ht
    obtain ⟨t0, _, rfl⟩ := ht
    simp only at hq
    simp only [hq, toInt64_of_fits q h1 h2]
  · intro t ht hv
    simp only [List.mem_map] at ht
    obtain ⟨t0, _, rfl⟩ := ht
    simp only at hv
    simp only [hv]
    decide

/-- Witness of C9: the source with the single tick 90000000000. -/
theorem readableDuration_labels_witness :
    (⟨.fin 90000000000, "1m30s"⟩ : Tick) ∈
        ((readableDuration (ticker (fun _ _ (s : Unit) =>
          ([⟨.fin 90000000000, ""⟩], s)))).Ticks (.fin 0) (.fin 1) ()).1 ∧
      (⟨.fin 90000000000, "1m30s"⟩ : Tick).Label = "1m30s" :=
  ⟨by decide,
   (readableDuration_labels (ticker (fun _ _ (s : Unit) => ([⟨.fin 90000000000, ""⟩], s)))
      (.fin 0) (.fin 1) ()).2.2 ⟨.fin 90000000000, "1m30s"⟩ (by decide) rfl⟩

/-- C9 fails as stated for a value beyond the `int64` range: a tick at `10^19`
is labelled with the string of the smallest duration, while the string of the
value truncated to whole nanoseconds, `10^19`, is `2777777h46m40s`. -/
theorem readableDuration_out_of_range :
    ((readableDuration (ticker (fun _ _ (s : Unit) =>
        ([⟨.fin 10000000000000000000, ""⟩], s)))).Ticks (.fin 0) (.fin 1) ()).1
      = [⟨.fin 10000000000000000000, "-2562047h47m16.854775808s"⟩] ∧
    F64.truncate 10000000000000000000 = 10000000000000000000 ∧
    time.Duration.String (F64.truncate 10000000000000000000) = "2777777h46m40s" ∧
    F64.toInt64 (.fin 10000000000000000000) = -9223372036854775808 := by
  decide

/-- C6, as the code has it: `readableBytes` keeps every tick and labels it with
`IBytes` of the `uint64` conversion of its value, without a check of the sign;
for a value above -1 and below `2^64` that is the rendering of the value
truncated toward zero (its integer part from 0 on), so a negative value above
-1 is labelled `0 B`. -/
theorem readableBytes_labels {σ : Type} (exponent : Nat → Fin 7) (m : Ticker σ)
    (min max : F64) (s : σ) :
    ((readableBytes exponent m).Ticks min max s).1 =
        (m.Ticks min max s).1.map
          (fun t => { t with Label := humanize.IBytes exponent (F64.toUint64 t.Value) }) ∧
    (∀ t ∈ ((readableBytes exponent m).Ticks min max s).1, ∀ q : ℚ, t.Value = .fin q →
        -1 < q → q < 2 ^ 64 →
        t.Label = humanize.IBytes exponent (F64.truncate q).toNat ∧
        (0 ≤ q → t.Label = humanize.IBytes exponent ⌊q⌋₊) ∧
        (q < 0 → t.Label = "0 B")) := by
  rw [readableBytes_ticks]
  refine ⟨rfl, ?_⟩
  intro t ht q hq h0 h1
  simp only [List.mem_map] at ht
  obtain ⟨t0, _, rfl⟩ := ht
  simp only at hq
  simp only [hq]
  refine ⟨by rw [toUint64_of_fits q h0 h1], fun h => by rw [toUint64_of_nonneg q h h1], ?_⟩
  intro hneg
  rw [toUint64_of_small_negative q h0 hneg, IBytes_below_ten exponent 0 (by norm_num)]
  decide

/-- Witness of C6: a tick at -1/2 is labelled `0 B`; the exponent is not
consulted below 10. -/
theorem readableBytes_labels_witness :
    (⟨.fin (-1 / 2), "0 B"⟩ : Tick).Label = "0 B" :=
  ((readableBytes_labels (fun _ => 0)
      (ticker (fun _ _ (s : Unit) => ([⟨.fin (-1 / 2), ""⟩], s)))
      (.fin (-1)) (.fin 0) ()).2 ⟨.fin (-1 / 2), "0 B"⟩
      (by
        rw [readableBytes_ticks]
        simp only [ticker, List.map_cons, List.map_nil, List.mem_singleton]
        rw [toUint64_of_small_negative (-1 / 2) (by norm_num) (by norm_num)]
        rfl)
      (-1 / 2) rfl (by norm_num) (by norm_num)).2.2 (by norm_num)

/-- C6 fails as stated: a tick at -1 is kept, and its label is the rendering
of 18446744073709551615, the reinterpretation of -1 as a `uint64`, and not that
of a clamped count.  The `float64` nearest to that count is `2^64`, whose
logarithm to base 1024 is 6.4: the exponent is 6. -/
theorem readableBytes_negative_reinterpreted :
    ((readableBytes (fun _ => 6)
        (ticker (fun _ _ (s : Unit) => ([⟨.fin (-1), ""⟩], s)))).Ticks
        (.fin (-2)) (.fin 0) ()).1 = [⟨.fin (-1), "16 EiB"⟩] ∧
      F64.toUint64 (.fin (-1)) = 18446744073709551615 ∧
      humanize.IBytes (fun _ => 6) 18446744073709551615 = "16 EiB" ∧
      humanize.IBytes (fun _ => 6) 0 = "0 B" := by
  decide

theorem truncate_epoch (locl : time.Location) :
    (time.Unix locl (F64.toInt64 (.fin 0))).Truncate time.Second = time.Unix locl 0 := by
  have h : F64.toInt64 (.fin 0) = 0 := by decide
  rw [h]
  simp [time.Unix, time.Time.Truncate, time.Second, time.unixToInternal]

set_option maxRecDepth 4096 in
theorem format_epoch_zero_offset (locl : time.Location) (h : locl.offset 0 = 0) :
    (time.Unix locl 0).FormatRFC3339 = "1970-01-01T00:00:00Z" := by
  simp only [time.Time.FormatRFC3339, time.Unix, h]
  decide

/-- C7, as the code has it: with a truncation of one second, `readableTime`
labels a tick at 0 with the RFC3339 form of the Unix epoch in the local
location of the process; the label depends on that location only through its
offset at the epoch, and is `1970-01-01T00:00:00Z` when that offset is zero. -/
theorem readableTime_epoch_local {σ : Type} (locl : time.Location) (m : Ticker σ)
    (min max : F64) (s : σ) :
    (∀ t ∈ ((readableTime locl time.Second m).Ticks min max s).1, t.Value = .fin 0 →
        t.Label = (time.Unix locl 0).FormatRFC3339) ∧
    (time.Unix locl 0).FormatRFC3339
        = (time.Unix (time.FixedZone (locl.offset 0)) 0).FormatRFC3339 ∧
    (locl.offset 0 = 0 → (time.Unix locl 0).FormatRFC3339 = "1970-01-01T00:00:00Z") := by
  refine ⟨?_, rfl, format_epoch_zero_offset locl⟩
  rw [readableTime_ticks]
  intro t ht hv
  simp only [List.mem_map] at ht
  obtain ⟨t0, _, rfl⟩ := ht
  simp only at hv
  simp only [hv, truncate_epoch]

set_option maxRecDepth 100000 in
/-- Witness of C7: local location UTC, one tick at 0. -/
theorem readableTime_epoch_local_witness :
    (⟨.fin 0, "1970-01-01T00:00:00Z"⟩ : Tick).Label = (time.Unix time.UTC 0).FormatRFC3339 ∧
      (time.Unix time.UTC 0).FormatRFC3339 = "1970-01-01T00:00:00Z" :=
  ⟨(readableTime_epoch_local time.UTC (ticker (fun _ _ (s : Unit) => ([⟨.fin 0, ""⟩], s)))
      (.fin 0) (.fin 1) ()).1 ⟨.fin 0, "1970-01-01T00:00:00Z"⟩ (by decide) rfl,
   (readableTime_epoch_local time.UTC (ticker (fun _ _ (s : Unit) => ([⟨.fin 0, ""⟩], s)))
      (.fin 0) (.fin 1) ()).2.2 rfl⟩

set_option maxRecDepth 100000 in
/-- C7 fails as stated: the label of a tick at 0 is `1970-01-01T00:00:00Z` in a
process whose local location is UTC and `1969-12-31T19:00:00-05:00` in a
process whose local location is five hours west of it. -/
theorem readableTime_epoch_depends_on_local :
    ((readableTime time.UTC time.Second
        (ticker (fun _ _ (s : Unit) => ([⟨.fin 0, ""⟩], s)))).Ticks (.fin 0) (.fin 1) ()).1
      = [⟨.fin 0, "1970-01-01T00:00:00Z"⟩] ∧
    ((readableTime (time.FixedZone (-18000)) time.Second
        (ticker (fun _ _ (s : Unit) => ([⟨.fin 0, ""⟩], s)))).Ticks (.fin 0) (.fin 1) ()).1
      = [⟨.fin 0, "1969-12-31T19:00:00-05:00"⟩] := by
  decide

theorem xys_inner (min : F64) (vs : List model.SamplePair) (acc : List XY) :
    vs.foldl (fun xys ev =>
      let x := model.Time.Unix ev.Timestamp
      let ev := if F64.lt ev.Value min then { ev with Value := min } else ev
      xys ++ [{ X := F64.ofInt64 x, Y := ev.Value }]) acc
    = acc ++ vs.map (fun ev =>
        { X := F64.ofInt64 (model.Time.Unix ev.Timestamp),
          Y := (if F64.lt ev.Value min then { ev with Value := min } else ev).Value }) := by
  exact foldl_append_singleton _ vs acc

theorem xys_outer (min : F64) (streams : List model.SampleStream) (acc : List XY) :
    streams.foldl (fun xys stream =>
      stream.Values.foldl (fun xys ev =>
        let x := model.Time.Unix ev.Timestamp
        let ev := if F64.lt ev.Value min then { ev with Value := min } else ev
        xys ++ [{ X := F64.ofInt64 x, Y := ev.Value }]) xys) acc
    = acc ++ (streams.flatMap (fun stream => stream.Values)).map (fun ev =>
        { X := F64.ofInt64 (model.Time.Unix ev.Timestamp),
          Y := (if F64.lt ev.Value min then { ev with Value := min } else ev).Value }) := by
  induction streams generalizing acc with
  | nil => simp
  | cons st rest ih =>
    rw [List.foldl_cons, xys_inner, ih]
    simp [List.flatMap_cons]

theorem xys_eq_map (streams : List model.SampleStream) (min : F64) :
    plotScatter.xys streams min =
      (streams.flatMap (fun stream => stream.Values)).map (fun ev =>
        { X := F64.ofInt64 (model.Time.Unix ev.Timestamp),
          Y := (if F64.lt ev.Value min then { ev with Value := min } else ev).Value }) := by
  unfold plotScatter.xys
  rw [xys_outer]
  simp

theorem ge_not_lt (a b : F64) (h : F64.ge a b = true) : F64.lt a b = false := by
  cases a <;> cases b <;> simp_all [F64.ge, F64.lt]

theorem ofInt64_exact (z : Int) (h : z.natAbs < 2 ^ 53) : F64.ofInt64 z = .fin z := by
  have hfilter : (List.range 11).filter (fun k => decide (2 ^ (53 + k) ≤ z.natAbs)) = [] := by
    rw [List.filter_eq_nil_iff]
    intro k _
    have : 2 ^ 53 ≤ 2 ^ (53 + k) := Nat.pow_le_pow_right (by norm_num) (by omega)
    simp only [decide_eq_true_eq, not_le]
    omega
  unfold F64.ofInt64
  simp only [hfilter, List.length_nil, pow_zero, Nat.div_one, Nat.mod_one, Nat.mul_zero,
    Nat.mul_one]
  have hup : (decide ((1 : ℕ) < 0) || (decide ((1 : ℕ) = 0) && decide (z.natAbs % 2 = 1)))
      = false := by simp
  simp only [hup, Bool.false_eq_true, if_false]
  congr 1
  by_cases hz : z < 0
  · rw [if_pos hz]
    have h1 : (z.natAbs : ℤ) = -z := by omega
    have h2 : ((z.natAbs : ℤ) : ℚ) = ((-z : ℤ) : ℚ) := by rw [h1]
    rw [Int.cast_natCast, Int.cast_neg] at h2
    rw [h2, neg_neg]
  · rw [if_neg hz]
    have h1 : (z.natAbs : ℤ) = z := by omega
    have h2 : ((z.natAbs : ℤ) : ℚ) = ((z : ℤ) : ℚ) := by rw [h1]
    rw [Int.cast_natCast] at h2
    exact h2

/-- C2: the points that the function literal of `plotScatter` emits correspond,
in order, to the samples of the streams: x is the `float64` of the whole Unix
seconds of the timestamp (the seconds themselves below `2^53`), y is the floor
when the value is below the floor and the value when it is at least the floor.
Streams A (t = 1000 s, v = 0.5) and B (t = 1000 s, v = 2.0) with floor 1.0 give
(1000, 1.0) and (1000, 2.0). -/
theorem xys_points (streams : List model.SampleStream) (min : F64) :
    List.Forall₂
      (fun (ev : model.SamplePair) (p : XY) =>
        p.X = F64.ofInt64 (model.Time.Unix ev.Timestamp) ∧
        ((model.Time.Unix ev.Timestamp).natAbs < 2 ^ 53 →
          p.X = .fin (model.Time.Unix ev.Timestamp)) ∧
        (F64.lt ev.Value min = true → p.Y = min) ∧
        (F64.ge ev.Value min = true → p.Y = ev.Value))
      (streams.flatMap (fun stream => stream.Values)) (plotScatter.xys streams min) ∧
    plotScatter.xys
        [⟨"A", [⟨1000000, .fin (1 / 2)⟩]⟩, ⟨"B", [⟨1000000, .fin 2⟩]⟩] (.fin 1)
      = [⟨.fin 1000, .fin 1⟩, ⟨.fin 1000, .fin 2⟩] := by
  constructor
  · rw [xys_eq_map, List.forall₂_map_right_iff, List.forall₂_same]
    intro ev _
    refine ⟨rfl, fun h => ofInt64_exact _ h, ?_, ?_⟩
    · intro h
      simp [h]
    · intro h
      simp [ge_not_lt _ _ h]
  · rw [xys_eq_map]
    have h1 : F64.ofInt64 (model.Time.Unix 1000000) = .fin 1000 := by decide
    norm_num [h1, F64.lt]

/-- Witness of C2: one stream with one sample below the floor. -/
theorem xys_points_witness :
    List.Forall₂
      (fun (ev : model.SamplePair) (p : XY) =>
        p.X = F64.ofInt64 (model.Time.Unix ev.Timestamp) ∧
        ((model.Time.Unix ev.Timestamp).natAbs < 2 ^ 53 →
          p.X = .fin (model.Time.Unix ev.Timestamp)) ∧
        (F64.lt ev.Value (.fin 1) = true → p.Y = .fin 1) ∧
        (F64.ge ev.Value (.fin 1) = true → p.Y = ev.Value))
      ([(⟨"A", [⟨1000000, .fin 0⟩]⟩ : model.SampleStream)].flatMap (fun stream => stream.Values))
      (plotScatter.xys [⟨"A", [⟨1000000, .fin 0⟩]⟩] (.fin 1)) :=
  (xys_points [⟨"A", [⟨1000000, .fin 0⟩]⟩] (.fin 1)).1


theorem count_foldl (mat : List model.SampleStream) (acc : Nat) :
    mat.foldl (fun count str => count + str.Values.length) acc
      = acc + (mat.map (fun str => str.Values.length)).sum := by
  induction mat generalizing acc with
  | nil => simp
  | cons st rest ih =>
    rw [List.foldl_cons, ih]
    simp [Nat.add_assoc]

theorem length_flatMap_values (streams : List model.SampleStream) :
    (streams.flatMap (fun stream => stream.Values)).length
      = (streams.map (fun str => str.Values.length)).sum := by
  induction streams with
  | nil => simp
  | cons st rest ih => simp [List.flatMap_cons, ih]

/-- C3: the function literal of `plotScatter` emits as many points as
`countMatrixPoints` returns, the sum of the sample counts of the streams; with
no stream, or with streams that all have no sample, there is no point and the
count is 0. -/
theorem xys_length_eq_countMatrixPoints (streams : List model.SampleStream) (min : F64) :
    (plotScatter.xys streams min).length = countMatrixPoints streams ∧
    countMatrixPoints streams = (streams.map (fun str => str.Values.length)).sum ∧
    (plotScatter.xys [] min = [] ∧ countMatrixPoints [] = 0) ∧
    ((∀ str ∈ streams, str.Values = []) →
      plotScatter.xys streams min = [] ∧ countMatrixPoints streams = 0) := by
  have hcount : countMatrixPoints streams = (streams.map (fun str => str.Values.length)).sum := by
    unfold countMatrixPoints
    rw [count_foldl]
    simp
  have hlen : (plotScatter.xys streams min).length = countMatrixPoints streams := by
    rw [hcount, xys_eq_map, List.length_map, length_flatMap_values]
  refine ⟨hlen, hcount, ⟨rfl, rfl⟩, ?_⟩
  intro hempty
  have hzero : countMatrixPoints streams = 0 := by
    rw [hcount, List.sum_eq_zero_iff]
    intro n hn
    simp only [List.mem_map] at hn
    obtain ⟨str, hstr, rfl⟩ := hn
    simp [hempty str hstr]
  refine ⟨?_, hzero⟩
  rw [← List.length_eq_zero, hlen, hzero]

/-- Witness of C3: two streams without samples. -/
theorem xys_length_eq_countMatrixPoints_witness :
    plotScatter.xys [⟨"A", []⟩, ⟨"B", []⟩] (.fin 1) = [] ∧
      countMatrixPoints [⟨"A", []⟩, ⟨"B", []⟩] = 0 :=
  (xys_length_eq_countMatrixPoints [⟨"A", []⟩, ⟨"B", []⟩] (.fin 1)).2.2.2 (by decide)

theorem RoundTrip_nil_response {Request ω : Type} (tpt : peakTransport Request ω)
    (req : Request) (w w1 : ω) (err : Option Error) (h : tpt.wrap req w = ((none, err), w1)) :
    tpt.RoundTrip req w = (.panic, w1) := by
  simp [peakTransport.RoundTrip, h]

theorem RoundTrip_nil_body {Request ω : Type} (tpt : peakTransport Request ω)
    (req : Request) (w w1 : ω) (resp : Response ω) (err : Option Error)
    (h : tpt.wrap req w = ((some resp, err), w1)) (hb : resp.Body = none) :
    tpt.RoundTrip req w = (.panic, (tpt.ReaderOut none w1).2) := by
  simp [peakTransport.RoundTrip, h, hb]

/-- C4 fails on the code: when the wrapped transport returns an error with a
nil response, `RoundTrip` panics on `resp.Body` and returns nothing; when it
returns an error with a response whose body is nil, `RoundTrip` first builds the
tap (the world counts one `spark.ReaderOut` call) and then panics on
`resp.Body.Close`. -/
theorem RoundTrip_panics_when_wrapped_fails :
    peakTransport.RoundTrip
        (⟨fun _ w => ((none, some "dial tcp: connection refused"), w),
          fun r w => (r.getD (fun _ w => (([], some "EOF"), w)), w + 1)⟩ :
          peakTransport Unit Nat) () 0
      = (.panic, 0) ∧
    peakTransport.RoundTrip
        (⟨fun _ w => ((some ⟨0, none⟩, some "dial tcp: connection refused"), w),
          fun r w => (r.getD (fun _ w => (([], some "EOF"), w)), w + 1)⟩ :
          peakTransport Unit Nat) () 0
      = (.panic, 1) :=
  ⟨rfl, rfl⟩

/-- C5 fails on the code: for a value of the units flag other than `duration`,
`bytes` and `unitless`, `unitTicker` stays nil, and with a matrix result
`plotScatter` panics on the call of the nil function once `plot.New` has
succeeded. -/
theorem unitTicker_unrecognized_panics {σ : Type} (units : String)
    (h1 : units ≠ "duration") (h2 : units ≠ "bytes") (h3 : units ≠ "unitless")
    (env : PlotEnv σ) (hnew : env.plotNew = none) (val : List model.SampleStream)
    (minVal : F64) (query filename : String) :
    unitTicker env units = none ∧
    plotScatter env val minVal (unitTicker env units) query filename = .panicked ∧
    main.switch env query filename minVal units (.matrix val) =
      [.printf "plotting %d points to %q" [.int (countMatrixPoints val), .str filename],
       .plotScatter val minVal none query filename .panicked,
       .panic] := by
  have hnil : unitTicker env units = none := by
    simp [unitTicker, h1, h2, h3]
  have hpanic : plotScatter env val minVal (unitTicker env units) query filename
      = .panicked := by
    simp [plotScatter, hnew, hnil]
  refine ⟨hnil, hpanic, ?_⟩
  simp only [main.switch, hpanic]
  simp [hnil]

/-- Witness of C5: the flag value `seconds`, one stream with one sample. -/
theorem unitTicker_unrecognized_panics_witness :
    plotScatter
        (⟨none, ticker (fun _ _ s => ([], s)), ticker (fun _ _ s => ([], s)),
          fun _ => none, fun _ _ _ _ => none, time.UTC, fun _ => 0⟩ : PlotEnv Unit)
        [⟨"A", [⟨1000000, .fin 2⟩]⟩] (.fin 1)
        (unitTicker (⟨none, ticker (fun _ _ s => ([], s)), ticker (fun _ _ s => ([], s)),
          fun _ => none, fun _ _ _ _ => none, time.UTC, fun _ => 0⟩ : PlotEnv Unit) "seconds")
        "up" "query.png"
      = .panicked :=
  (unitTicker_unrecognized_panics "seconds" (by decide) (by decide) (by decide)
    (⟨none, ticker (fun _ _ s => ([], s)), ticker (fun _ _ s => ([], s)),
      fun _ => none, fun _ _ _ _ => none, time.UTC, fun _ => 0⟩ : PlotEnv Unit) rfl
    [⟨"A", [⟨1000000, .fin 2⟩]⟩] (.fin 1) "up" "query.png").2.1

theorem closeTimes_counted {ω : Type} (b1 : ReadCloser (ω × Nat)) (b : ReadCloser ω)
    (h : ∀ w0 k, b1.Close (w0, k) = ((b.Close w0).1, ((b.Close w0).2, k + 1))) :
    ∀ n w0 k, (closeTimes b1 n (w0, k)).2.2 = k + n := by
  intro n
  induction n with
  | zero => intro w0 k; simp [closeTimes]
  | succ n ih =>
    intro w0 k
    simp only [closeTimes, h]
    rw [ih]
    omega

/-- C8, as the code has it: each call of `Close` on the body that `RoundTrip`
returns calls `Close` of the underlying body exactly once and returns its
result, so `n` calls close the underlying body `n` times. -/
theorem RoundTrip_Close_delegates {Request ω : Type} (tpt : peakTransport Request (ω × Nat))
    (req : Request) (w w1 : ω × Nat) (resp : Response (ω × Nat)) (err : Option Error)
    (b : ReadCloser ω) (hwrap : tpt.wrap req w = ((some resp, err), w1))
    (hbody : resp.Body = some (counted b)) :
    ∃ resp1 b1 w2, tpt.RoundTrip req w = (.ret (some resp1, err), w2) ∧
      resp1.Body = some b1 ∧
      (∀ w0 k, b1.Close (w0, k) = ((b.Close w0).1, ((b.Close w0).2, k + 1))) ∧
      (∀ n w0 k, (closeTimes b1 n (w0, k)).2.2 = k + n) := by
  have hclose : ∀ w0 k, (fnReadCloser.toReadCloser
      ({ readFn := (tpt.ReaderOut (some (counted b).Read) w1).1,
         closeFn := (counted b).Close } : fnReadCloser (ω × Nat))).Close (w0, k)
      = ((b.Close w0).1, ((b.Close w0).2, k + 1)) := by
    intro w0 k
    rfl
  refine ⟨{ resp with Body := some (fnReadCloser.toReadCloser
      { readFn := (tpt.ReaderOut (some (counted b).Read) w1).1,
        closeFn := (counted b).Close }) }, _, (tpt.ReaderOut (some (counted b).Read) w1).2,
      ?_, rfl, hclose, closeTimes_counted _ b hclose⟩
  simp [peakTransport.RoundTrip, hwrap, hbody]

/-- Witness of C8: a transport that answers with a body whose `Close` succeeds. -/
theorem RoundTrip_Close_delegates_witness :
    ∃ resp1 b1 w2,
      peakTransport.RoundTrip
          (⟨fun _ w => ((some ⟨200, some (counted
              ⟨fun _ w => (([], some "EOF"), w), fun w => (none, w)⟩)⟩, none), w),
            fun r w => (r.getD (fun _ w => (([], some "EOF"), w)), w)⟩ :
            peakTransport Unit (Unit × Nat)) () ((), 0)
        = (.ret (some resp1, none), w2) ∧
      resp1.Body = some b1 ∧
      (∀ w0 k, b1.Close (w0, k) = (none, (w0, k + 1))) ∧
      (∀ n w0 k, (closeTimes b1 n (w0, k)).2.2 = k + n) :=
  RoundTrip_Close_delegates
    (⟨fun _ w => ((some ⟨200, some (counted
        ⟨fun _ w => (([], some "EOF"), w), fun w => (none, w)⟩)⟩, none), w),
      fun r w => (r.getD (fun _ w => (([], some "EOF"), w)), w)⟩ :
      peakTransport Unit (Unit × Nat)) () ((), 0) ((), 0)
    ⟨200, some (counted ⟨fun _ w => (([], some "EOF"), w), fun w => (none, w)⟩)⟩ none
    ⟨fun _ w => (([], some "EOF"), w), fun w => (none, w)⟩ rfl rfl

/-- C8 fails as stated: two calls of `Close` on the body that `RoundTrip`
returns call `Close` of the underlying body twice. -/
theorem Close_twice_closes_underlying_twice :
    ∃ resp1 b1 w2,
      peakTransport.RoundTrip
          (⟨fun _ w => ((some ⟨200, some (counted
              ⟨fun _ w => (([], some "EOF"), w), fun w => (none, w)⟩)⟩, none), w),
            fun r w => (r.getD (fun _ w => (([], some "EOF"), w)), w)⟩ :
            peakTransport Unit (Unit × Nat)) () ((), 0)
        = (.ret (some resp1, none), w2) ∧
      resp1.Body = some b1 ∧ w2 = ((), 0) ∧
      closeTimes b1 2 w2 = ([none, none], ((), 2)) :=
  ⟨_, _, _, rfl, rfl, rfl, rfl⟩

theorem vector_foldl {σ : Type} (val : List model.Sample) (acc : List (Event σ)) :
    val.foldl (fun evs scalar =>
        evs ++ [Event.printf "vector %v: %v" [.time scalar.Timestamp, .value scalar.Value]]) acc
      = acc ++ val.map (fun scalar =>
          Event.printf "vector %v: %v" [.time scalar.Timestamp, .value scalar.Value]) :=
  foldl_append_singleton _ val acc

/-- C10: the type switch of `main` calls `plotScatter` exactly when the result
is a matrix, and then once, with the matrix; a scalar, a vector or a string is
only reported through `log.Printf`; any other result ends the run in
`log.Fatalf` with the name of the received type, without a call of
`plotScatter`. -/
theorem switch_renders_iff_matrix {σ : Type} (env : PlotEnv σ) (query filename : String)
    (minVal : F64) (units : String) (v : model.Value) :
    (((main.switch env query filename minVal units v).any Event.isRender = true) ↔
        ∃ val, v = .matrix val) ∧
    (∀ val, ((main.switch env query filename minVal units (.matrix val)).filter
        Event.isRender).map
          (fun e => match e with
            | .plotScatter streams min _ title fname _ => some (streams, min, title, fname)
            | _ => none)
        = [some (val, minVal, query, filename)]) ∧
    (∀ value ts, main.switch env query filename minVal units (.scalar value ts)
        = [.printf "scalar %v: %v" [.time ts, .value value]]) ∧
    (∀ val, main.switch env query filename minVal units (.vector val)
        = val.map (fun scalar =>
            .printf "vector %v: %v" [.time scalar.Timestamp, .value scalar.Value])) ∧
    (∀ value ts, main.switch env query filename minVal units (.string value ts)
        = [.printf "string %v: %v" [.time ts, .str value]]) ∧
    (∀ name, main.switch env query filename minVal units (.other name)
        = [.fatalf "received type %T from prometheus" [.typeOf name]]) := by
  refine ⟨?_, ?_, fun _ _ => rfl, ?_, fun _ _ => rfl, fun _ => rfl⟩
  · cases v with
    | scalar value ts => simp [main.switch, Event.isRender]
    | vector val =>
      simp only [main.switch, vector_foldl]
      simp [Event.isRender]
    | matrix val =>
      simp only [main.switch]
      split <;> simp [Event.isRender]
    | string value ts => simp [main.switch, Event.isRender]
    | other name => simp [main.switch, Event.isRender]
  · intro val
    simp only [main.switch]
    split <;> simp [Event.isRender]
  · intro val
    simp only [main.switch, vector_foldl]
    simp

end Promheatmap
